import Mathlib

/-!
# Verification of the budget-chat session registry (src/chatroom.rs)

Shallow embedding of the chatroom core:

* `Message` and `render` embed the `Message` enum and its `Display` impl.
* `JoinError` embeds the `JoinError` enum.
* `ChatroomImpl` embeds the registry state: the `connected_users`
  map (`HashMap<SessionId, (String, Sender<Message>)>`, embedded as a list
  of records with pairwise-distinct session ids) and the `session_count`
  counter.
* Delivery sinks (`Sender<Message>`) are embedded as natural-number sink
  identifiers.  A channel send can fail when the receiving half is dropped;
  this is embedded by a per-operation predicate `fail : Nat → Bool` telling
  which sinks are dead.  The Rust code writes `let _ = sender.send(..)`,
  discarding the result, so operations never inspect the send outcome; the
  trace component of each operation collects the messages that actually
  arrived (sends to dead sinks arrive nowhere).
* Each operation returns the new state together with the trace of delivered
  `(sink, message)` pairs, in program order.
-/

namespace BudgetChat

/-- One entry of the `connected_users` map: key `sid` (the `SessionId`),
value `(nick, sink)` (the `(String, Sender<Message>)` pair). -/
structure UserRec where
  sid : Nat
  nick : String
  sink : Nat
deriving DecidableEq, Repr

/-- The `Message` enum of `chatroom.rs`.  The source names the chat variant
`Message::Message { from, text }`; the spec calls it `Chat`. -/
inductive Message where
  | Joined (nick : String)
  | Left (nick : String)
  | ConnectedUsers (users : List String)
  | Chat (sender : String) (text : String)
deriving DecidableEq, Repr

/-- The `Display` impl for `Message`: its exact rendered text. -/
def render : Message → String
  | Message.Joined nick => "* " ++ nick ++ " joined the room"
  | Message.Left nick => "* " ++ nick ++ " left the room"
  | Message.ConnectedUsers users =>
      "* Welcome, the room contains: " ++ String.intercalate ", " users
  | Message.Chat sender text => "[" ++ sender ++ "] " ++ text

/-- The `JoinError` enum of `chatroom.rs`. -/
inductive JoinError where
  | DuplicateNickname
  | InvalidNickname
deriving DecidableEq, Repr

/-- The character test inside `ChatroomImpl::join`:
`(c < 'a' || c > 'z') && (c < 'A' || c > 'Z') && (c < '0' || c > '9')`. -/
def invalidChar (c : Char) : Bool :=
  (decide (c < 'a') || decide (c > 'z')) &&
  (decide (c < 'A') || decide (c > 'Z')) &&
  (decide (c < '0') || decide (c > '9'))

/-- The nickname validation of `ChatroomImpl::join`:
`nickname.len() == 0 || nickname.chars().any(...)`. -/
def invalidNickname (n : String) : Bool :=
  n.length == 0 || n.data.any invalidChar

/-- Registry state: the `connected_users` map and the `session_count`
counter of `ChatroomImpl`. -/
structure ChatroomImpl where
  connected_users : List UserRec
  session_count : Nat
deriving DecidableEq, Repr

/-- The freshly constructed (`Default`) chatroom: empty map, zero counter. -/
def ChatroomImpl.empty : ChatroomImpl := ⟨[], 0⟩

/-- Nicknames of the registered users, in table order. -/
def nicknamesOf (rows : List UserRec) : List String := rows.map UserRec.nick

/-- Sink identifiers of the registered users, in table order. -/
def sinksOf (rows : List UserRec) : List Nat := rows.map UserRec.sink

/-- Session ids of the registered users, in table order. -/
def sidsOf (rows : List UserRec) : List Nat := rows.map UserRec.sid

/-- A single `sender.send(m)` whose result is discarded: the message
arrives iff the sink is alive. -/
def sendOne (fail : Nat → Bool) (sink : Nat) (m : Message) : List (Nat × Message) :=
  if fail sink then [] else [(sink, m)]

/-- A fan-out loop `for (_, sender) in connected_users.values()
\x7b let _ = sender.send(m); \x7d`: each live sink receives `m`. -/
def broadcastTo (fail : Nat → Bool) (rows : List UserRec) (m : Message) :
    List (Nat × Message) :=
  rows.filterMap (fun r => if fail r.sink then none else some (r.sink, m))

/-- The failure predicate of a run where every sink is alive. -/
def noFail : Nat → Bool := fun _ => false

/-- `ChatroomImpl::new_session_id`: increment `session_count`, return it. -/
def ChatroomImpl.new_session_id (st : ChatroomImpl) : Nat × ChatroomImpl :=
  (st.session_count + 1, { st with session_count := st.session_count + 1 })

/-- Result of `ChatroomImpl::join`: the returned
`Result<SessionId, JoinError>`, the state after the call, and the trace of
delivered messages. -/
structure JoinOutcome where
  result : Except JoinError Nat
  state : ChatroomImpl
  sent : List (Nat × Message)
deriving Repr

/-- `ChatroomImpl::join`: validate the nickname shape, reject duplicates,
send the roster to the joiner, broadcast `Joined` to the already-registered
users, then insert the new record under a fresh session id. -/
def ChatroomImpl.join (st : ChatroomImpl) (fail : Nat → Bool)
    (nickname : String) (message_sender : Nat) : JoinOutcome :=
  if invalidNickname nickname then
    ⟨Except.error JoinError.InvalidNickname, st, []⟩
  else if st.connected_users.any (fun r => r.nick == nickname) then
    ⟨Except.error JoinError.DuplicateNickname, st, []⟩
  else
    let nicknames := nicknamesOf st.connected_users
    let sentRoster := sendOne fail message_sender (Message.ConnectedUsers nicknames)
    let sentJoined := broadcastTo fail st.connected_users (Message.Joined nickname)
    let p := st.new_session_id
    ⟨Except.ok p.1,
     { connected_users :=
         p.2.connected_users ++ [⟨p.1, nickname, message_sender⟩],
       session_count := p.2.session_count },
     sentRoster ++ sentJoined⟩

/-- `ChatroomImpl::leave`: remove the record keyed by `session` if present
(`HashMap::remove`); if one was removed, broadcast `Left(nickname)` to the
remaining users.  Map keys are pairwise distinct, so removal by key is
`List.filter` on the embedded list. -/
def ChatroomImpl.leave (st : ChatroomImpl) (fail : Nat → Bool) (session : Nat) :
    ChatroomImpl × List (Nat × Message) :=
  match st.connected_users.find? (fun r => r.sid == session) with
  | none => (st, [])
  | some r =>
      let remaining := st.connected_users.filter (fun q => q.sid != session)
      ({ st with connected_users := remaining },
       broadcastTo fail remaining (Message.Left r.nick))

/-- `ChatroomImpl::send_message`: if `session` is registered, deliver
`Chat(from_nickname, text)` to every registered user other than the sender;
the table itself is not mutated. -/
def ChatroomImpl.send_message (st : ChatroomImpl) (fail : Nat → Bool)
    (session : Nat) (text : String) : ChatroomImpl × List (Nat × Message) :=
  match st.connected_users.find? (fun r => r.sid == session) with
  | none => (st, [])
  | some r =>
      (st,
       broadcastTo fail (st.connected_users.filter (fun q => q.sid != session))
         (Message.Chat r.nick text))

/-- One registry call, with its own failure predicate. -/
inductive Op where
  | join (fail : Nat → Bool) (nickname : String) (sink : Nat)
  | leave (fail : Nat → Bool) (session : Nat)
  | msg (fail : Nat → Bool) (session : Nat) (text : String)

/-- Execute one registry call. -/
def stepOp (st : ChatroomImpl) : Op → ChatroomImpl × List (Nat × Message)
  | Op.join fail n k => ((st.join fail n k).state, (st.join fail n k).sent)
  | Op.leave fail s => st.leave fail s
  | Op.msg fail s t => st.send_message fail s t

/-- Execute a sequence of registry calls, accumulating the trace. -/
def runOps (st : ChatroomImpl) : List Op → ChatroomImpl × List (Nat × Message)
  | [] => (st, [])
  | op :: ops =>
      ((runOps (stepOp st op).1 ops).1,
       (stepOp st op).2 ++ (runOps (stepOp st op).1 ops).2)

/-- Whether an operation hands the registry sink `k` as a joiner's sink. -/
def opUsesSink (k : Nat) : Op → Bool
  | Op.join _ _ k' => k' == k
  | _ => false

/-- States reachable from the freshly constructed chatroom by registry
calls. -/
inductive Reachable : ChatroomImpl → Prop
  | init : Reachable ChatroomImpl.empty
  | join (fail : Nat → Bool) (n : String) (k : Nat) {st : ChatroomImpl} :
      Reachable st → Reachable (st.join fail n k).state
  | leave (fail : Nat → Bool) (s : Nat) {st : ChatroomImpl} :
      Reachable st → Reachable (st.leave fail s).1
  | msg (fail : Nat → Bool) (s : Nat) (t : String) {st : ChatroomImpl} :
      Reachable st → Reachable (st.send_message fail s t).1

/-- Structural well-formedness of a registry state: session ids are
pairwise distinct and bounded by the counter, and nicknames are pairwise
distinct. -/
def WF (st : ChatroomImpl) : Prop :=
  (sidsOf st.connected_users).Nodup ∧
  (∀ r ∈ st.connected_users, r.sid ≤ st.session_count) ∧
  (nicknamesOf st.connected_users).Nodup

/-- The spec's character class `[A-Za-z0-9]`. -/
def specAlnum (c : Char) : Prop :=
  ('A' ≤ c ∧ c ≤ 'Z') ∨ ('a' ≤ c ∧ c ≤ 'z') ∨ ('0' ≤ c ∧ c ≤ '9')

instance (c : Char) : Decidable (specAlnum c) := by
  unfold specAlnum; infer_instance

/-- Messages of a trace that arrived at sink `k`, in order. -/
def sentTo (k : Nat) (tr : List (Nat × Message)) : List Message :=
  tr.filterMap (fun p => if p.1 == k then some p.2 else none)

/-! ## Helper lemmas -/

lemma broadcastTo_noFail (rows : List UserRec) (m : Message) :
    broadcastTo noFail rows m = rows.map (fun r => (r.sink, m)) := by
  induction rows with
  | nil => rfl
  | cons r rs ih => simp [broadcastTo, noFail] at ih ⊢; exact ih

lemma broadcastTo_eq_filter (fail : Nat → Bool) (rows : List UserRec) (m : Message) :
    broadcastTo fail rows m =
      (broadcastTo noFail rows m).filter (fun p => !fail p.1) := by
  induction rows with
  | nil => rfl
  | cons r rs ih =>
      simp only [broadcastTo, noFail, List.filterMap_cons, List.filter_cons] at ih ⊢
      cases h : fail r.sink <;> simp [h, ih]

lemma sendOne_eq_filter (fail : Nat → Bool) (k : Nat) (m : Message) :
    sendOne fail k m = (sendOne noFail k m).filter (fun p => !fail p.1) := by
  cases h : fail k <;> simp [sendOne, noFail, h]

lemma invalidChar_iff (c : Char) : invalidChar c = true ↔ ¬ specAlnum c := by
  simp only [invalidChar, specAlnum, Bool.and_eq_true, Bool.or_eq_true,
    decide_eq_true_eq, gt_iff_lt, not_or, not_and_or, not_le]
  tauto

lemma invalidNickname_eq_false {n : String}
    (hne : n ≠ "") (hal : ∀ c ∈ n.data, specAlnum c) :
    invalidNickname n = false := by
  unfold invalidNickname
  have h1 : (n.length == 0) = false := by
    cases n with
    | mk d =>
        cases d with
        | nil => exact absurd rfl hne
        | cons c cs => simp [String.length]
  have h2 : n.data.any invalidChar = false := by
    rw [List.any_eq_false]
    intro c hc
    rw [Bool.not_eq_true, Bool.eq_false_iff, Ne, invalidChar_iff]
    exact fun h => h (hal c hc)
  simp [h1, h2]

lemma invalidNickname_of_bad {n : String}
    (h : n = "" ∨ ∃ c ∈ n.data, ¬ specAlnum c) :
    invalidNickname n = true := by
  rcases h with rfl | ⟨c, hc, hcs⟩
  · decide
  · unfold invalidNickname
    rw [Bool.or_eq_true]
    right
    rw [List.any_eq_true]
    exact ⟨c, hc, (invalidChar_iff c).2 hcs⟩

lemma any_nick_eq_true {rows : List UserRec} {n : String}
    (h : n ∈ nicknamesOf rows) :
    rows.any (fun r => r.nick == n) = true := by
  rw [List.any_eq_true]
  simp only [nicknamesOf, List.mem_map] at h
  obtain ⟨r, hr, hrn⟩ := h
  exact ⟨r, hr, by simp [hrn]⟩

lemma any_nick_eq_false {rows : List UserRec} {n : String}
    (h : n ∉ nicknamesOf rows) :
    rows.any (fun r => r.nick == n) = false := by
  rw [List.any_eq_false]
  intro r hr
  simp only [Bool.not_eq_true, beq_eq_false_iff_ne, Ne]
  exact fun he => h (by simpa [nicknamesOf, List.mem_map] using ⟨r, hr, he⟩)

/-- Number of copies of message `m` that a trace delivers to sink `k`. -/
def countMsg (tr : List (Nat × Message)) (k : Nat) (m : Message) : Nat :=
  (tr.filter (fun p => p.1 == k && decide (p.2 = m))).length

lemma countMsg_nil (k : Nat) (m : Message) : countMsg [] k m = 0 := rfl

lemma countMsg_cons (j : Nat) (m' : Message) (tr : List (Nat × Message))
    (k : Nat) (m : Message) :
    countMsg ((j, m') :: tr) k m
      = (if j = k ∧ m' = m then 1 else 0) + countMsg tr k m := by
  simp only [countMsg, List.filter_cons]
  by_cases h : j = k ∧ m' = m
  · rw [if_pos (by simp [h.1, h.2]), if_pos h, List.length_cons]
    omega
  · rw [if_neg (by simpa using h), if_neg h]
    simp [countMsg]

lemma countMsg_append (t1 t2 : List (Nat × Message)) (k : Nat) (m : Message) :
    countMsg (t1 ++ t2) k m = countMsg t1 k m + countMsg t2 k m := by
  simp [countMsg, List.filter_append]

lemma countMsg_broadcast_noFail (rows : List UserRec) (k : Nat) (m : Message) :
    countMsg (broadcastTo noFail rows m) k m = (sinksOf rows).count k := by
  induction rows with
  | nil => rfl
  | cons a as ih =>
      rw [broadcastTo_noFail] at ih ⊢
      simp only [List.map_cons]
      rw [countMsg_cons]
      by_cases h : a.sink = k <;>
        simp [sinksOf, List.count_cons, ih, h, Nat.add_comm]

lemma countMsg_broadcast_ne (rows : List UserRec) (k : Nat)
    {m m' : Message} (h : m' ≠ m) :
    countMsg (broadcastTo noFail rows m) k m' = 0 := by
  induction rows with
  | nil => rfl
  | cons a as ih =>
      rw [broadcastTo_noFail] at ih ⊢
      simp only [List.map_cons]
      rw [countMsg_cons]
      simp only [ih]
      rw [if_neg (fun hc => h hc.2.symm)]

lemma mem_broadcastTo {fail : Nat → Bool} {rows : List UserRec} {m : Message}
    {p : Nat × Message} (hp : p ∈ broadcastTo fail rows m) :
    p.1 ∈ sinksOf rows ∧ p.2 = m := by
  induction rows with
  | nil => cases hp
  | cons a as ih =>
      simp only [broadcastTo, List.filterMap_cons] at hp
      rcases h : fail a.sink with _ | _ <;> rw [h] at hp
      · rcases List.mem_cons.mp hp with rfl | hp'
        · exact ⟨by simp [sinksOf], rfl⟩
        · have := ih hp'
          exact ⟨by simp [sinksOf] at this ⊢; exact Or.inr this.1, this.2⟩
      · have := ih hp
        exact ⟨by simp [sinksOf] at this ⊢; exact Or.inr this.1, this.2⟩

lemma sentTo_broadcast_not_mem {rows : List UserRec} {k : Nat}
    (hk : k ∉ sinksOf rows) (fail : Nat → Bool) (m : Message) :
    sentTo k (broadcastTo fail rows m) = [] := by
  rw [List.eq_nil_iff_forall_not_mem]
  intro m' hm'
  simp only [sentTo, List.mem_filterMap] at hm'
  obtain ⟨p, hp, hpk⟩ := hm'
  have hps := (mem_broadcastTo hp).1
  by_cases h : p.1 = k
  · exact hk (h ▸ hps)
  · simp [h] at hpk

lemma find_sid_eq {rows : List UserRec} {r : UserRec}
    (hnd : (sidsOf rows).Nodup) (hr : r ∈ rows) :
    rows.find? (fun q => q.sid == r.sid) = some r := by
  induction rows with
  | nil => cases hr
  | cons a as ih =>
      simp only [sidsOf, List.map_cons, List.nodup_cons] at hnd
      rcases List.mem_cons.mp hr with rfl | hr'
      · simp [List.find?]
      · rw [List.find?]
        have hne : (a.sid == r.sid) = false := by
          simp only [beq_eq_false_iff_ne, Ne]
          intro he
          exact hnd.1 (he ▸ List.mem_map_of_mem UserRec.sid hr')
        rw [hne]
        exact ih hnd.2 hr'

lemma find?_eq_none_of {rows : List UserRec} {s : Nat}
    (h : ∀ r ∈ rows, r.sid ≠ s) :
    rows.find? (fun q => q.sid == s) = none := by
  rw [List.find?_eq_none]
  intro q hq
  simp [h q hq]

lemma find?_filter_ne (rows : List UserRec) (s : Nat) :
    (rows.filter (fun q => q.sid != s)).find? (fun q => q.sid == s) = none := by
  apply find?_eq_none_of
  intro r hr
  have := (List.mem_filter.mp hr).2
  simpa using this

lemma sink_inj {rows : List UserRec} (hnd : (sinksOf rows).Nodup) :
    ∀ q ∈ rows, ∀ r ∈ rows, q.sink = r.sink → q = r := by
  induction rows with
  | nil => intro q hq; cases hq
  | cons a as ih =>
      simp only [sinksOf, List.map_cons, List.nodup_cons] at hnd
      intro q hq r hr he
      rcases List.mem_cons.mp hq with rfl | hq' <;>
        rcases List.mem_cons.mp hr with rfl | hr'
      · rfl
      · exact absurd (he ▸ List.mem_map_of_mem UserRec.sink hr') hnd.1
      · exact absurd (he ▸ List.mem_map_of_mem UserRec.sink hq') hnd.1
      · exact ih hnd.2 q hq' r hr' he

/-! ## C6: message rendering -/

/-- C6: `render` is a pure total function with the exact text forms of the
`Display` impl: `Joined(n)` renders as `"* {n} joined the room"`, `Left(n)`
as `"* {n} left the room"`, `ConnectedUsers(list)` as
`"* Welcome, the room contains: "` followed by the list joined with `", "`,
and `Chat(from, text)` as `"[{from}] {text}"`. -/
theorem render_spec (n : String) (us : List String) (f t : String) :
    render (Message.Joined n) = "* " ++ n ++ " joined the room" ∧
    render (Message.Left n) = "* " ++ n ++ " left the room" ∧
    render (Message.ConnectedUsers us) =
      "* Welcome, the room contains: " ++ String.intercalate ", " us ∧
    render (Message.Chat f t) = "[" ++ f ++ "] " ++ t :=
  ⟨rfl, rfl, rfl, rfl⟩

/-! ## C4: invalid nickname -/

/-- C4: for every nickname that is empty or has a character outside
`[A-Za-z0-9]`, `join` returns `InvalidNickname`, leaves the table unchanged
and delivers nothing; this holds for every state, in particular for states
already containing the nickname, so the shape check takes precedence over
the duplicate check. -/
theorem join_invalid_nickname (st : ChatroomImpl) (fail : Nat → Bool)
    (n : String) (k : Nat)
    (h : n = "" ∨ ∃ c ∈ n.data, ¬ specAlnum c) :
    (st.join fail n k).result = Except.error JoinError.InvalidNickname ∧
    (st.join fail n k).state = st ∧
    (st.join fail n k).sent = [] := by
  have hin : invalidNickname n = true := invalidNickname_of_bad h
  simp [ChatroomImpl.join, hin]

/-- Witness for C4 at the nickname `"a!"`, in a state that already
registers `"a!"`: the shape error wins over the duplicate error. -/
theorem join_invalid_nickname_witness :
    ((ChatroomImpl.mk [⟨1, "a!", 7⟩] 1).join noFail "a!" 9).result =
        Except.error JoinError.InvalidNickname ∧
    ((ChatroomImpl.mk [⟨1, "a!", 7⟩] 1).join noFail "a!" 9).state =
        ChatroomImpl.mk [⟨1, "a!", 7⟩] 1 ∧
    ((ChatroomImpl.mk [⟨1, "a!", 7⟩] 1).join noFail "a!" 9).sent = [] :=
  join_invalid_nickname (ChatroomImpl.mk [⟨1, "a!", 7⟩] 1) noFail "a!" 9
    (Or.inr ⟨'!', by decide, by decide⟩)

/-! ## C5: duplicate nickname -/

/-- C5: for every valid (non-empty, all characters in `[A-Za-z0-9]`)
nickname equal to a registered one, `join` returns `DuplicateNickname`,
leaves the table unchanged and delivers nothing to any sink. -/
theorem join_duplicate_nickname (st : ChatroomImpl) (fail : Nat → Bool)
    (n : String) (k : Nat)
    (hne : n ≠ "") (hal : ∀ c ∈ n.data, specAlnum c)
    (hdup : n ∈ nicknamesOf st.connected_users) :
    (st.join fail n k).result = Except.error JoinError.DuplicateNickname ∧
    (st.join fail n k).state = st ∧
    (st.join fail n k).sent = [] := by
  have hin : invalidNickname n = false := invalidNickname_eq_false hne hal
  have hany := any_nick_eq_true hdup
  simp [ChatroomImpl.join, hin, hany]

/-- Witness for C5: joining as `"bob"` when `"bob"` is registered. -/
theorem join_duplicate_nickname_witness :
    ((ChatroomImpl.mk [⟨1, "bob", 7⟩] 1).join noFail "bob" 9).result =
        Except.error JoinError.DuplicateNickname ∧
    ((ChatroomImpl.mk [⟨1, "bob", 7⟩] 1).join noFail "bob" 9).state =
        ChatroomImpl.mk [⟨1, "bob", 7⟩] 1 ∧
    ((ChatroomImpl.mk [⟨1, "bob", 7⟩] 1).join noFail "bob" 9).sent = [] :=
  join_duplicate_nickname (ChatroomImpl.mk [⟨1, "bob", 7⟩] 1) noFail "bob" 9
    (by decide) (by decide) (by decide)

/-! ## C3: leave -/

/-- C3: `leave(s)` removes the record for `s` if present and delivers
exactly one `Left(n)` (with `n` the removed record's nickname) to every
remaining registered sink; if `s` has no record it changes nothing and
delivers nothing; and a second `leave(s)` right after the first delivers
nothing (idempotence), for every state and session. -/
theorem leave_spec (st : ChatroomImpl) (s : Nat) :
    (∀ r ∈ st.connected_users, r.sid = s →
        (sidsOf st.connected_users).Nodup →
        (sinksOf st.connected_users).Nodup →
        (st.leave noFail s).1.connected_users
            = st.connected_users.filter (fun q => q.sid != s) ∧
        (st.leave noFail s).1.session_count = st.session_count ∧
        ∀ q ∈ st.connected_users, q.sid ≠ s →
          countMsg (st.leave noFail s).2 q.sink (Message.Left r.nick) = 1) ∧
    ((∀ r ∈ st.connected_users, r.sid ≠ s) →
        st.leave noFail s = (st, [])) ∧
    (st.leave noFail s).1.leave noFail s = ((st.leave noFail s).1, []) := by
  refine ⟨?_, ?_, ?_⟩
  · intro r hr hsid hnd hsk
    subst hsid
    have hf : st.connected_users.find? (fun q => q.sid == r.sid) = some r :=
      find_sid_eq hnd hr
    have hstate : st.leave noFail r.sid
        = ({ st with connected_users :=
               st.connected_users.filter (fun q => q.sid != r.sid) },
           broadcastTo noFail
             (st.connected_users.filter (fun q => q.sid != r.sid))
             (Message.Left r.nick)) := by
      simp [ChatroomImpl.leave, hf]
    rw [hstate]
    refine ⟨rfl, rfl, ?_⟩
    intro q hq hqs
    have hqmem : q ∈ st.connected_users.filter (fun p => p.sid != r.sid) :=
      List.mem_filter.mpr ⟨hq, by simpa using hqs⟩
    rw [countMsg_broadcast_noFail]
    refine List.count_eq_one_of_mem ?_ (List.mem_map_of_mem UserRec.sink hqmem)
    exact List.Nodup.sublist
      (List.Sublist.map UserRec.sink (List.filter_sublist st.connected_users)) hsk
  · intro h
    simp [ChatroomImpl.leave, find?_eq_none_of h]
  · cases hf : st.connected_users.find? (fun q => q.sid == s) with
    | none =>
        have h1 : st.leave noFail s = (st, []) := by
          simp [ChatroomImpl.leave, hf]
        rw [h1]
        rw [h1]
    | some r =>
        have h1 : st.leave noFail s
            = ({ st with connected_users :=
                   st.connected_users.filter (fun q => q.sid != s) },
               broadcastTo noFail
                 (st.connected_users.filter (fun q => q.sid != s))
                 (Message.Left r.nick)) := by
          simp [ChatroomImpl.leave, hf]
        rw [h1]
        simp only [ChatroomImpl.leave, find?_filter_ne]

/-- Witness for C3 in the two-user room \x7balice ↦ sink 4, bob ↦ sink 5\x7d:
bob's leave delivers one `Left("bob")` to alice's sink, and leaving with
the unknown session 9 is a no-op. -/
theorem leave_spec_witness :
    countMsg ((ChatroomImpl.mk [⟨1, "alice", 4⟩, ⟨2, "bob", 5⟩] 2).leave
        noFail 2).2 4 (Message.Left "bob") = 1 ∧
    (ChatroomImpl.mk [⟨1, "alice", 4⟩] 1).leave noFail 9
        = (ChatroomImpl.mk [⟨1, "alice", 4⟩] 1, []) :=
  ⟨((leave_spec (ChatroomImpl.mk [⟨1, "alice", 4⟩, ⟨2, "bob", 5⟩] 2) 2).1
      ⟨2, "bob", 5⟩ (by decide) rfl (by decide) (by decide)).2.2
      ⟨1, "alice", 4⟩ (by decide) (by decide),
   (leave_spec (ChatroomImpl.mk [⟨1, "alice", 4⟩] 1) 9).2.1 (by decide)⟩

/-! ## C2: send_message -/

/-- C2: when `s` is registered, `send_message(s, text)` leaves the table
unchanged, delivers exactly one `Chat` with the sender's nickname and the
unmodified `text` to every other registered sink, and delivers nothing to
the sender's own sink; when `s` is unregistered it is a silent no-op. -/
theorem send_message_spec (st : ChatroomImpl) (s : Nat) (text : String) :
    (∀ r ∈ st.connected_users, r.sid = s →
        (sidsOf st.connected_users).Nodup →
        (sinksOf st.connected_users).Nodup →
        (st.send_message noFail s text).1 = st ∧
        (∀ q ∈ st.connected_users, q.sid ≠ s →
            countMsg (st.send_message noFail s text).2 q.sink
              (Message.Chat r.nick text) = 1) ∧
        ∀ p ∈ (st.send_message noFail s text).2, p.1 ≠ r.sink) ∧
    ((∀ r ∈ st.connected_users, r.sid ≠ s) →
        st.send_message noFail s text = (st, [])) := by
  constructor
  · intro r hr hsid hnd hsk
    subst hsid
    have hf : st.connected_users.find? (fun q => q.sid == r.sid) = some r :=
      find_sid_eq hnd hr
    have hstate : st.send_message noFail r.sid text
        = (st,
           broadcastTo noFail
             (st.connected_users.filter (fun q => q.sid != r.sid))
             (Message.Chat r.nick text)) := by
      simp [ChatroomImpl.send_message, hf]
    rw [hstate]
    refine ⟨rfl, ?_, ?_⟩
    · intro q hq hqs
      have hqmem : q ∈ st.connected_users.filter (fun p => p.sid != r.sid) :=
        List.mem_filter.mpr ⟨hq, by simpa using hqs⟩
      rw [countMsg_broadcast_noFail]
      refine List.count_eq_one_of_mem ?_ (List.mem_map_of_mem UserRec.sink hqmem)
      exact List.Nodup.sublist
        (List.Sublist.map UserRec.sink (List.filter_sublist st.connected_users)) hsk
    · intro p hp hpk
      have hps := (mem_broadcastTo hp).1
      simp only [sinksOf, List.mem_map] at hps
      obtain ⟨q, hq, hqs⟩ := hps
      have hqrows := (List.mem_filter.mp hq).1
      have hqne := (List.mem_filter.mp hq).2
      have : q = r := sink_inj hsk q hqrows r hr (by rw [hqs, hpk])
      rw [this] at hqne
      simp at hqne
  · intro h
    simp [ChatroomImpl.send_message, find?_eq_none_of h]

/-- Witness for C2 in the two-user room \x7balice ↦ sink 4, bob ↦ sink 5\x7d:
alice's `"hi"` reaches bob's sink exactly once, never her own sink, and a
send from the unknown session 9 is a no-op. -/
theorem send_message_spec_witness :
    countMsg ((ChatroomImpl.mk [⟨1, "alice", 4⟩, ⟨2, "bob", 5⟩] 2).send_message
        noFail 1 "hi").2 5 (Message.Chat "alice" "hi") = 1 ∧
    (∀ p ∈ ((ChatroomImpl.mk [⟨1, "alice", 4⟩, ⟨2, "bob", 5⟩] 2).send_message
        noFail 1 "hi").2, p.1 ≠ 4) ∧
    (ChatroomImpl.mk [⟨1, "alice", 4⟩, ⟨2, "bob", 5⟩] 2).send_message
        noFail 9 "x" = (ChatroomImpl.mk [⟨1, "alice", 4⟩, ⟨2, "bob", 5⟩] 2, []) :=
  ⟨((send_message_spec (ChatroomImpl.mk [⟨1, "alice", 4⟩, ⟨2, "bob", 5⟩] 2)
        1 "hi").1 ⟨1, "alice", 4⟩ (by decide) rfl (by decide) (by decide)).2.1
      ⟨2, "bob", 5⟩ (by decide) (by decide),
   ((send_message_spec (ChatroomImpl.mk [⟨1, "alice", 4⟩, ⟨2, "bob", 5⟩] 2)
        1 "hi").1 ⟨1, "alice", 4⟩ (by decide) rfl (by decide) (by decide)).2.2,
   (send_message_spec (ChatroomImpl.mk [⟨1, "alice", 4⟩, ⟨2, "bob", 5⟩] 2)
        9 "x").2 (by decide)⟩

lemma sentTo_cons (j : Nat) (m : Message) (tr : List (Nat × Message)) (k : Nat) :
    sentTo k ((j, m) :: tr)
      = if j = k then m :: sentTo k tr else sentTo k tr := by
  simp only [sentTo, List.filterMap_cons]
  by_cases h : j = k
  · simp [h]
  · simp [h]

/-! ## C1: successful join -/

/-- C1: a successful `join(n, k)` returns the fresh session id
`session_count + 1`, the joining sink `k` receives exactly the single
message `ConnectedUsers(roster)` with the roster equal to the pre-join
nicknames (hence equal as a set), every previously registered sink
receives exactly one `Joined(n)` while the joiner's sink receives none,
and the table becomes the old table plus one record for `n` under the
fresh id (fresh: not a pre-existing session id). -/
theorem join_success_broadcast (st : ChatroomImpl) (n : String) (k : Nat)
    (hv : invalidNickname n = false)
    (hd : n ∉ nicknamesOf st.connected_users)
    (hid : ∀ r ∈ st.connected_users, r.sid ≤ st.session_count)
    (hsk : (sinksOf st.connected_users).Nodup)
    (hk : k ∉ sinksOf st.connected_users) :
    (st.join noFail n k).result = Except.ok (st.session_count + 1) ∧
    sentTo k (st.join noFail n k).sent
        = [Message.ConnectedUsers (nicknamesOf st.connected_users)] ∧
    (∀ r ∈ st.connected_users,
        countMsg (st.join noFail n k).sent r.sink (Message.Joined n) = 1) ∧
    countMsg (st.join noFail n k).sent k (Message.Joined n) = 0 ∧
    (st.join noFail n k).state.connected_users
        = st.connected_users ++ [⟨st.session_count + 1, n, k⟩] ∧
    (st.session_count + 1) ∉ sidsOf st.connected_users := by
  have hany := any_nick_eq_false hd
  have hjoin : st.join noFail n k
      = ⟨Except.ok (st.session_count + 1),
         { connected_users :=
             st.connected_users ++ [⟨st.session_count + 1, n, k⟩],
           session_count := st.session_count + 1 },
         (k, Message.ConnectedUsers (nicknamesOf st.connected_users))
           :: broadcastTo noFail st.connected_users (Message.Joined n)⟩ := by
    simp [ChatroomImpl.join, hv, hany, ChatroomImpl.new_session_id,
      sendOne, noFail]
  rw [hjoin]
  refine ⟨rfl, ?_, ?_, ?_, rfl, ?_⟩
  · rw [sentTo_cons, if_pos rfl, sentTo_broadcast_not_mem hk]
  · intro r hr
    rw [countMsg_cons, if_neg (by simp), countMsg_broadcast_noFail]
    rw [Nat.zero_add]
    exact List.count_eq_one_of_mem hsk (List.mem_map_of_mem UserRec.sink hr)
  · rw [countMsg_cons, if_neg (by simp), countMsg_broadcast_noFail]
    rw [Nat.zero_add]
    exact List.count_eq_zero_of_not_mem hk
  · intro hmem
    simp only [sidsOf, List.mem_map] at hmem
    obtain ⟨r, hr, hrs⟩ := hmem
    have := hid r hr
    omega

/-- Witness for C1: `"bob"` with sink 5 joins the one-user room
\x7balice ↦ sink 4\x7d. -/
theorem join_success_broadcast_witness :
    ((ChatroomImpl.mk [⟨1, "alice", 4⟩] 1).join noFail "bob" 5).result
        = Except.ok 2 ∧
    sentTo 5 ((ChatroomImpl.mk [⟨1, "alice", 4⟩] 1).join noFail "bob" 5).sent
        = [Message.ConnectedUsers ["alice"]] ∧
    (∀ r ∈ (ChatroomImpl.mk [⟨1, "alice", 4⟩] 1).connected_users,
        countMsg ((ChatroomImpl.mk [⟨1, "alice", 4⟩] 1).join noFail "bob" 5).sent
          r.sink (Message.Joined "bob") = 1) ∧
    countMsg ((ChatroomImpl.mk [⟨1, "alice", 4⟩] 1).join noFail "bob" 5).sent
        5 (Message.Joined "bob") = 0 ∧
    ((ChatroomImpl.mk [⟨1, "alice", 4⟩] 1).join noFail "bob" 5).state.connected_users
        = [⟨1, "alice", 4⟩, ⟨2, "bob", 5⟩] ∧
    (2 : Nat) ∉ sidsOf [(⟨1, "alice", 4⟩ : UserRec)] :=
  join_success_broadcast (ChatroomImpl.mk [⟨1, "alice", 4⟩] 1) "bob" 5
    (by decide) (by decide) (by decide) (by decide) (by decide)

/-! ## C7: nickname uniqueness invariant -/

lemma send_message_state (st : ChatroomImpl) (fail : Nat → Bool)
    (s : Nat) (t : String) :
    (st.send_message fail s t).1 = st := by
  unfold ChatroomImpl.send_message
  cases st.connected_users.find? (fun r => r.sid == s) <;> rfl

lemma join_state_cases (st : ChatroomImpl) (fail : Nat → Bool)
    (n : String) (k : Nat) :
    (st.join fail n k).state = st ∨
    ((st.join fail n k).state.connected_users
        = st.connected_users ++ [⟨st.session_count + 1, n, k⟩] ∧
     (st.join fail n k).state.session_count = st.session_count + 1 ∧
     n ∉ nicknamesOf st.connected_users) := by
  by_cases h1 : invalidNickname n = true
  · left; simp [ChatroomImpl.join, h1]
  · rw [Bool.not_eq_true] at h1
    by_cases h2 : st.connected_users.any (fun r => r.nick == n) = true
    · left; simp [ChatroomImpl.join, h1, h2]
    · right
      rw [Bool.not_eq_true] at h2
      have hnm : n ∉ nicknamesOf st.connected_users := by
        intro hm
        rw [any_nick_eq_true hm] at h2
        cases h2
      refine ⟨?_, ?_, hnm⟩ <;>
        simp [ChatroomImpl.join, h1, h2, ChatroomImpl.new_session_id]

lemma leave_state_cases (st : ChatroomImpl) (fail : Nat → Bool) (s : Nat) :
    (st.leave fail s).1 = st ∨
    ((st.leave fail s).1.connected_users
        = st.connected_users.filter (fun q => q.sid != s) ∧
     (st.leave fail s).1.session_count = st.session_count) := by
  cases hf : st.connected_users.find? (fun q => q.sid == s) with
  | none => left; simp [ChatroomImpl.leave, hf]
  | some r => right; constructor <;> simp [ChatroomImpl.leave, hf]

lemma wf_join (st : ChatroomImpl) (fail : Nat → Bool) (n : String) (k : Nat)
    (h : WF st) : WF (st.join fail n k).state := by
  rcases join_state_cases st fail n k with he | ⟨hrows, hcnt, hnn⟩
  · rw [he]; exact h
  · obtain ⟨hnd, hbd, hnk⟩ := h
    refine ⟨?_, ?_, ?_⟩
    · rw [hrows]
      simp only [sidsOf, List.map_append, List.map_cons, List.map_nil]
      refine List.Nodup.append hnd (List.nodup_singleton _) ?_
      intro a ha hb
      simp only [List.mem_singleton] at hb
      subst hb
      simp only [sidsOf] at hnd
      simp only [List.mem_map] at ha
      obtain ⟨r, hr, hrs⟩ := ha
      have := hbd r hr
      omega
    · intro r hr
      rw [hrows] at hr
      rw [hcnt]
      rcases List.mem_append.mp hr with hr' | hr'
      · have := hbd r hr'
        omega
      · simp only [List.mem_singleton] at hr'
        subst hr'
        simp
    · rw [hrows]
      simp only [nicknamesOf, List.map_append, List.map_cons, List.map_nil]
      refine List.Nodup.append hnk (List.nodup_singleton _) ?_
      intro a ha hb
      simp only [List.mem_singleton] at hb
      subst hb
      exact hnn ha

lemma wf_leave (st : ChatroomImpl) (fail : Nat → Bool) (s : Nat)
    (h : WF st) : WF (st.leave fail s).1 := by
  rcases leave_state_cases st fail s with he | ⟨hrows, hcnt⟩
  · rw [he]; exact h
  · obtain ⟨hnd, hbd, hnk⟩ := h
    refine ⟨?_, ?_, ?_⟩
    · rw [hrows]
      exact List.Nodup.sublist
        (List.Sublist.map UserRec.sid (List.filter_sublist st.connected_users)) hnd
    · intro r hr
      rw [hrows] at hr
      rw [hcnt]
      exact hbd r (List.mem_filter.mp hr).1
    · rw [hrows]
      exact List.Nodup.sublist
        (List.Sublist.map UserRec.nick (List.filter_sublist st.connected_users)) hnk

lemma reachable_wf {st : ChatroomImpl} (h : Reachable st) : WF st := by
  induction h with
  | init => exact ⟨List.nodup_nil, fun r hr => absurd hr (List.not_mem_nil r),
      List.nodup_nil⟩
  | join fail n k _ ih => exact wf_join _ fail n k ih
  | leave fail s _ ih => exact wf_leave _ fail s ih
  | msg fail s t _ ih => rw [send_message_state]; exact ih

/-- C7: in every state reachable from the fresh chatroom by registry calls
(`join`, `leave`, `send_message`, with arbitrary sink-failure behaviour),
no two registered participants share a nickname; since the `Reachable`
constructors are exactly the registry operations, every operation
preserves the invariant from every reachable state. -/
theorem reachable_nickname_unique (st : ChatroomImpl) (h : Reachable st) :
    (nicknamesOf st.connected_users).Nodup :=
  (reachable_wf h).2.2

/-- Witness for C7: the state reached by two joins and one leave. -/
theorem reachable_nickname_unique_witness :
    (nicknamesOf ((((ChatroomImpl.empty.join noFail "alice" 4).state.join
        noFail "bob" 5).state.leave noFail 1).1).connected_users).Nodup :=
  reachable_nickname_unique _
    (Reachable.leave noFail 1
      (Reachable.join noFail "bob" 5
        (Reachable.join noFail "alice" 4 Reachable.init)))

/-! ## C8: delivery failures are swallowed -/

/-- C8: for every set of dead sinks, `join` returns the same result and
the same table as in the failure-free run, and the traces of `join`,
`leave` and `send_message` are exactly the failure-free traces restricted
to the live sinks — so the outcome and resulting table of every operation
never depend on whether any individual sink delivery succeeded, and every
live sink still receives its messages. -/
theorem delivery_failure_swallowed (st : ChatroomImpl) (fail : Nat → Bool)
    (n : String) (k : Nat) (s : Nat) (text : String) :
    (st.join fail n k).result = (st.join noFail n k).result ∧
    (st.join fail n k).state = (st.join noFail n k).state ∧
    (st.join fail n k).sent
        = ((st.join noFail n k).sent).filter (fun p => !fail p.1) ∧
    (st.leave fail s).1 = (st.leave noFail s).1 ∧
    (st.leave fail s).2 = ((st.leave noFail s).2).filter (fun p => !fail p.1) ∧
    (st.send_message fail s text).1 = st ∧
    (st.send_message fail s text).2
        = ((st.send_message noFail s text).2).filter (fun p => !fail p.1) := by
  have hjoin : (st.join fail n k).result = (st.join noFail n k).result ∧
      (st.join fail n k).state = (st.join noFail n k).state ∧
      (st.join fail n k).sent
        = ((st.join noFail n k).sent).filter (fun p => !fail p.1) := by
    by_cases h1 : invalidNickname n = true
    · simp [ChatroomImpl.join, h1]
    · rw [Bool.not_eq_true] at h1
      by_cases h2 : st.connected_users.any (fun r => r.nick == n) = true
      · simp [ChatroomImpl.join, h1, h2]
      · rw [Bool.not_eq_true] at h2
        refine ⟨by simp [ChatroomImpl.join, h1, h2],
                by simp [ChatroomImpl.join, h1, h2], ?_⟩
        simp only [ChatroomImpl.join, h1, h2, Bool.false_eq_true, if_false,
          List.filter_append]
        rw [← sendOne_eq_filter, ← broadcastTo_eq_filter]
  have hleave : (st.leave fail s).1 = (st.leave noFail s).1 ∧
      (st.leave fail s).2
        = ((st.leave noFail s).2).filter (fun p => !fail p.1) := by
    cases hf : st.connected_users.find? (fun q => q.sid == s) with
    | none => simp [ChatroomImpl.leave, hf]
    | some r =>
        refine ⟨by simp [ChatroomImpl.leave, hf], ?_⟩
        simp only [ChatroomImpl.leave, hf]
        rw [← broadcastTo_eq_filter]
  have hmsg : (st.send_message fail s text).2
      = ((st.send_message noFail s text).2).filter (fun p => !fail p.1) := by
    cases hf : st.connected_users.find? (fun q => q.sid == s) with
    | none => simp [ChatroomImpl.send_message, hf]
    | some r =>
        simp only [ChatroomImpl.send_message, hf]
        rw [← broadcastTo_eq_filter]
  exact ⟨hjoin.1, hjoin.2.1, hjoin.2.2, hleave.1, hleave.2,
    send_message_state st fail s text, hmsg⟩

/-! ## C9: a failed join's sink is never delivered to nor retained -/

lemma mem_sendOne {fail : Nat → Bool} {k' : Nat} {m : Message}
    {p : Nat × Message} (hp : p ∈ sendOne fail k' m) : p = (k', m) := by
  unfold sendOne at hp
  rcases h : fail k' with _ | _ <;> rw [h] at hp
  · simpa using hp
  · cases hp

lemma join_sent_cases (st : ChatroomImpl) (fail : Nat → Bool)
    (n : String) (k' : Nat) :
    (st.join fail n k').sent = [] ∨
    (st.join fail n k').sent
      = sendOne fail k' (Message.ConnectedUsers (nicknamesOf st.connected_users))
          ++ broadcastTo fail st.connected_users (Message.Joined n) := by
  by_cases h1 : invalidNickname n = true
  · left; simp [ChatroomImpl.join, h1]
  · rw [Bool.not_eq_true] at h1
    by_cases h2 : st.connected_users.any (fun r => r.nick == n) = true
    · left; simp [ChatroomImpl.join, h1, h2]
    · rw [Bool.not_eq_true] at h2
      right; simp [ChatroomImpl.join, h1, h2]

lemma leave_sent_cases (st : ChatroomImpl) (fail : Nat → Bool) (s : Nat) :
    (st.leave fail s).2 = [] ∨
    ∃ m, (st.leave fail s).2
      = broadcastTo fail (st.connected_users.filter (fun q => q.sid != s)) m := by
  cases hf : st.connected_users.find? (fun q => q.sid == s) with
  | none => left; simp [ChatroomImpl.leave, hf]
  | some r => right; exact ⟨Message.Left r.nick, by simp [ChatroomImpl.leave, hf]⟩

lemma send_message_sent_cases (st : ChatroomImpl) (fail : Nat → Bool)
    (s : Nat) (text : String) :
    (st.send_message fail s text).2 = [] ∨
    ∃ m, (st.send_message fail s text).2
      = broadcastTo fail (st.connected_users.filter (fun q => q.sid != s)) m := by
  cases hf : st.connected_users.find? (fun q => q.sid == s) with
  | none => left; simp [ChatroomImpl.send_message, hf]
  | some r =>
      right
      exact ⟨Message.Chat r.nick text, by simp [ChatroomImpl.send_message, hf]⟩

lemma sinksOf_filter_subset (rows : List UserRec) (p : UserRec → Bool) :
    sinksOf (rows.filter p) ⊆ sinksOf rows :=
  List.map_subset UserRec.sink (List.filter_subset' rows)

lemma step_avoids {k : Nat} {st : ChatroomImpl} {op : Op}
    (hst : k ∉ sinksOf st.connected_users) (hop : opUsesSink k op = false) :
    k ∉ sinksOf (stepOp st op).1.connected_users ∧
    ∀ p ∈ (stepOp st op).2, p.1 ≠ k := by
  cases op with
  | join fail n k' =>
      have hk' : k' ≠ k := by simpa [opUsesSink] using hop
      constructor
      · rcases join_state_cases st fail n k' with he | ⟨hrows, _, _⟩
        · simpa [stepOp, he] using hst
        · intro hmem
          simp only [stepOp] at hmem
          rw [hrows] at hmem
          simp only [sinksOf, List.map_append, List.mem_append, List.map_cons,
            List.map_nil, List.mem_singleton] at hmem
          rcases hmem with h | h
          · exact hst (by simpa [sinksOf] using h)
          · exact hk' h.symm
      · intro p hp
        simp only [stepOp] at hp
        rcases join_sent_cases st fail n k' with he | he <;> rw [he] at hp
        · cases hp
        · rcases List.mem_append.mp hp with h | h
          · rw [mem_sendOne h]
            exact hk'
          · intro hpk
            exact hst (hpk ▸ (mem_broadcastTo h).1)
  | leave fail s =>
      constructor
      · rcases leave_state_cases st fail s with he | ⟨hrows, _⟩
        · simpa [stepOp, he] using hst
        · intro hmem
          simp only [stepOp] at hmem
          rw [hrows] at hmem
          exact hst (sinksOf_filter_subset _ _ hmem)
      · intro p hp
        simp only [stepOp] at hp
        rcases leave_sent_cases st fail s with he | ⟨m, he⟩ <;> rw [he] at hp
        · cases hp
        · intro hpk
          exact hst (sinksOf_filter_subset _ _ (hpk ▸ (mem_broadcastTo hp).1))
  | msg fail s t =>
      constructor
      · simp only [stepOp]
        rw [send_message_state]
        exact hst
      · intro p hp
        simp only [stepOp] at hp
        rcases send_message_sent_cases st fail s t with he | ⟨m, he⟩ <;>
          rw [he] at hp
        · cases hp
        · intro hpk
          exact hst (sinksOf_filter_subset _ _ (hpk ▸ (mem_broadcastTo hp).1))

lemma runOps_avoids {k : Nat} : ∀ (ops : List Op) (st : ChatroomImpl),
    k ∉ sinksOf st.connected_users →
    (∀ op ∈ ops, opUsesSink k op = false) →
    ∀ p ∈ (runOps st ops).2, p.1 ≠ k := by
  intro ops
  induction ops with
  | nil => intro st _ _ p hp; simp [runOps] at hp
  | cons op ops ih =>
      intro st hst hops p hp
      simp only [runOps, List.mem_append] at hp
      have h1 := step_avoids hst (hops op (List.mem_cons_self op ops))
      rcases hp with hp | hp
      · exact h1.2 p hp
      · exact ih (stepOp st op).1 h1.1
          (fun o ho => hops o (List.mem_cons_of_mem _ ho)) p hp

/-- C9: when `join(n, k)` returns an error it delivers nothing and leaves
the registry unchanged, so the sink `k` of a failed join is not retained;
consequently, as long as `k` is not registered and is not handed back in
by a later join, no later sequence of registry operations ever delivers a
message to `k`. -/
theorem failed_join_sink_untouched (st : ChatroomImpl) (fail : Nat → Bool)
    (n : String) (k : Nat) (e : JoinError) (ops : List Op)
    (herr : (st.join fail n k).result = Except.error e)
    (hk : k ∉ sinksOf st.connected_users)
    (hops : ∀ op ∈ ops, opUsesSink k op = false) :
    (st.join fail n k).sent = [] ∧
    (st.join fail n k).state = st ∧
    ∀ p ∈ (runOps (st.join fail n k).state ops).2, p.1 ≠ k := by
  have hfail : (st.join fail n k).sent = [] ∧ (st.join fail n k).state = st := by
    by_cases h1 : invalidNickname n = true
    · simp [ChatroomImpl.join, h1]
    · rw [Bool.not_eq_true] at h1
      by_cases h2 : st.connected_users.any (fun r => r.nick == n) = true
      · simp [ChatroomImpl.join, h1, h2]
      · rw [Bool.not_eq_true] at h2
        have hok : (st.join fail n k).result
            = Except.ok (st.session_count + 1) := by
          simp [ChatroomImpl.join, h1, h2, ChatroomImpl.new_session_id]
        rw [hok] at herr
        cases herr
  refine ⟨hfail.1, hfail.2, ?_⟩
  rw [hfail.2]
  exact runOps_avoids ops st hk hops

/-- Witness for C9: the empty nickname fails to join the empty room with
sink 5; a later join and chat never target sink 5. -/
theorem failed_join_sink_untouched_witness :
    (ChatroomImpl.empty.join noFail "" 5).sent = [] ∧
    (ChatroomImpl.empty.join noFail "" 5).state = ChatroomImpl.empty ∧
    ∀ p ∈ (runOps (ChatroomImpl.empty.join noFail "" 5).state
        [Op.join noFail "bob" 7, Op.msg noFail 1 "hi"]).2, p.1 ≠ 5 :=
  failed_join_sink_untouched ChatroomImpl.empty noFail "" 5
    JoinError.InvalidNickname [Op.join noFail "bob" 7, Op.msg noFail 1 "hi"]
    rfl (by decide) (by decide)

/-! ## C10: a nickname is freed on leave -/

/-- C10: if the registered participant `r` (session `s`) is the only one
with nickname `n`, then after `leave(s)` a `join(n, k')` succeeds — it
returns `Ok` with a session id different from `s` — and registers a fresh
record for `n`. -/
theorem nickname_freed_on_leave (st : ChatroomImpl) (s : Nat) (n : String)
    (k' : Nat) (r : UserRec)
    (hr : r ∈ st.connected_users) (hsid : r.sid = s) (hnick : r.nick = n)
    (hv : invalidNickname n = false)
    (huniq : ∀ q ∈ st.connected_users, q.nick = n → q.sid = s)
    (hid : ∀ q ∈ st.connected_users, q.sid ≤ st.session_count)
    (hnd : (sidsOf st.connected_users).Nodup) :
    ∃ id', ((st.leave noFail s).1.join noFail n k').result = Except.ok id' ∧
      id' ≠ s ∧
      ((st.leave noFail s).1.join noFail n k').state.connected_users
        = (st.leave noFail s).1.connected_users ++ [⟨id', n, k'⟩] := by
  subst hsid
  subst hnick
  have hf : st.connected_users.find? (fun q => q.sid == r.sid) = some r :=
    find_sid_eq hnd hr
  have hstate : (st.leave noFail r.sid).1
      = { st with connected_users :=
            st.connected_users.filter (fun q => q.sid != r.sid) } := by
    simp [ChatroomImpl.leave, hf]
  rw [hstate]
  have hnm : r.nick ∉ nicknamesOf
      (st.connected_users.filter (fun q => q.sid != r.sid)) := by
    intro hm
    simp only [nicknamesOf, List.mem_map] at hm
    obtain ⟨q, hq, hqn⟩ := hm
    have hq1 := (List.mem_filter.mp hq).1
    have hq2 := (List.mem_filter.mp hq).2
    rw [huniq q hq1 hqn] at hq2
    simp at hq2
  have hany := any_nick_eq_false hnm
  refine ⟨st.session_count + 1, ?_, ?_, ?_⟩
  · simp [ChatroomImpl.join, hv, hany, ChatroomImpl.new_session_id]
  · have := hid r hr
    omega
  · simp [ChatroomImpl.join, hv, hany, ChatroomImpl.new_session_id]

/-- Witness for C10: bob leaves the one-user room and rejoins as `"bob"`
with a new sink; the join succeeds under the new session id 2 ≠ 1. -/
theorem nickname_freed_on_leave_witness :
    ∃ id', (((ChatroomImpl.mk [⟨1, "bob", 4⟩] 1).leave noFail 1).1.join
        noFail "bob" 9).result = Except.ok id' ∧
      id' ≠ 1 ∧
      (((ChatroomImpl.mk [⟨1, "bob", 4⟩] 1).leave noFail 1).1.join
          noFail "bob" 9).state.connected_users
        = ((ChatroomImpl.mk [⟨1, "bob", 4⟩] 1).leave
            noFail 1).1.connected_users ++ [⟨id', "bob", 9⟩] :=
  nickname_freed_on_leave (ChatroomImpl.mk [⟨1, "bob", 4⟩] 1) 1 "bob" 9
    ⟨1, "bob", 4⟩ (by decide) rfl rfl (by decide) (by decide) (by decide)
    (by decide)

end BudgetChat
